import Mathlib

/-!
Verification development for the Voice-Based-Medicine-Reminder repository.

The repository's scheduling / dose-lifecycle core lives in
`backend/models/adherence.py` (the `AdherenceLog` record and its transition
methods), `backend/app/reminder_service.py` (the `ReminderService` engine:
materialization of `MedicineSchedule` rows, missed-dose checks, snooze and
cancellation over APScheduler jobs) and
`backend/services/scheduler_service.py` (the `SchedulerService`: recurring
cron jobs keyed by string ids `medicine_{mid}_{uid}_{HHMM}`).

Conventions of the embedding:
* `datetime` values are integers — seconds for `AdherenceLog` (whose delay
  arithmetic is in seconds) and minutes-since-epoch for the scheduling layer
  (whose slots are day/hour/minute grids).
* Python strings used as statuses stay `String`s; job-id strings are
  `List Char` so that Python's `str.startswith` / `in` become list predicates.
* Fallible parsing (`ValueError`) becomes `Option`; an uncaught exception that
  aborts a transaction becomes an explicit rollback result.
-/

namespace MedReminder

/-- One row of `adherence_logs` (`backend/models/adherence.py`), restricted to
the fields read or written by the methods under verification.  Defaults mirror
the SQLAlchemy column defaults (`status` defaults to `'pending'` via the
constructor, `taken=False`, `delay_minutes=0`, `reminders_sent=0`,
`caregiver_notified=False`). -/
structure AdherenceLog where
  user_id : Nat := 1
  medicine_id : Nat := 1
  scheduled_time : Int := 0
  actual_time : Option Int := none
  status : String := "pending"
  taken : Bool := false
  delay_minutes : Int := 0
  actual_dosage : Option String := none
  voice_transcript : Option String := none
  voice_confirmation : Bool := false
  additional_notes : Option String := none
  reminders_sent : Nat := 0
  last_reminder_time : Option Int := none
  reminder_method : Option String := none
  caregiver_notified : Bool := false
  caregiver_notification_time : Option Int := none
  deriving Repr, DecidableEq

/-- Python's `int(x)` applied to the real quotient `s / d`: division truncated
toward zero (`AdherenceLog.mark_as_taken` computes
`int(delay_seconds / 60)`). -/
def pyTruncDiv (s : Int) (d : Nat) : Int :=
  if 0 ≤ s then ((s.toNat / d : Nat) : Int) else -(((-s).toNat / d : Nat) : Int)

/-- Python truthiness of an optional string argument (`if dosage:`):
`None` and `""` are falsy. -/
def strTruthy : Option String → Bool
  | none => false
  | some s => !s.isEmpty

/-- `AdherenceLog.mark_as_taken` (adherence.py lines 112–129).  `actual_time`
is the optional argument (`None` → `datetime.now()`, passed here as `now`);
the delay is `max(0, int(delay_seconds / 60))` where
`delay_seconds = actual_time - scheduled_time`. -/
def AdherenceLog.mark_as_taken (log : AdherenceLog) (actual_time : Option Int)
    (dosage : Option String) (voice_transcript : Option String) (now : Int) :
    AdherenceLog :=
  let at_ := actual_time.getD now
  let log1 := { log with status := "taken", taken := true, actual_time := some at_ }
  let log2 := if strTruthy dosage then { log1 with actual_dosage := dosage } else log1
  let log3 := if strTruthy voice_transcript then
      { log2 with voice_transcript := voice_transcript, voice_confirmation := true }
    else log2
  -- `if self.actual_time and self.scheduled_time:` — both datetimes are set
  -- (and Python datetimes are always truthy), so the delay is always computed.
  let delay_seconds := at_ - log.scheduled_time
  { log3 with delay_minutes := max 0 (pyTruncDiv delay_seconds 60) }

/-- `AdherenceLog.mark_as_missed` (adherence.py lines 131–135). -/
def AdherenceLog.mark_as_missed (log : AdherenceLog) : AdherenceLog :=
  { log with status := "missed", taken := false, actual_time := none }

/-- `AdherenceLog.mark_as_skipped` (adherence.py lines 137–144). -/
def AdherenceLog.mark_as_skipped (log : AdherenceLog) (reason : Option String) :
    AdherenceLog :=
  let l := { log with status := "skipped", taken := false, actual_time := none }
  if strTruthy reason then { l with additional_notes := reason } else l

/-- `AdherenceLog.increment_reminders` (adherence.py lines 168–172). -/
def AdherenceLog.increment_reminders (log : AdherenceLog) (method : String)
    (now : Int) : AdherenceLog :=
  { log with reminders_sent := log.reminders_sent + 1,
             last_reminder_time := some now,
             reminder_method := some method }

/-- `AdherenceLog.notify_caregiver` (adherence.py lines 174–177). -/
def AdherenceLog.notify_caregiver (log : AdherenceLog) (now : Int) : AdherenceLog :=
  { log with caregiver_notified := true, caregiver_notification_time := some now }

/-- `AdherenceLog.is_overdue` (adherence.py lines 179–186).  The code returns
`False` when `self.taken or self.status in ['skipped', 'missed']`, otherwise
compares `(now - scheduled_time).total_seconds() / 60 > tolerance_minutes`;
with integer seconds `s` and integer tolerance `t` the real comparison
`s / 60 > t` is exactly `60 * t < s`. -/
def AdherenceLog.is_overdue (log : AdherenceLog) (tolerance_minutes : Int)
    (now : Int) : Bool :=
  if log.taken || (log.status == "skipped" || log.status == "missed") then false
  else decide (60 * tolerance_minutes < now - log.scheduled_time)

/-- The terminal statuses of the dose state machine. -/
def terminalStatus (s : String) : Prop :=
  s = "taken" ∨ s = "missed" ∨ s = "skipped"

instance (s : String) : Decidable (terminalStatus s) := by
  unfold terminalStatus; infer_instance

/-- A dose already confirmed as taken (a terminal status). -/
def takenLog : AdherenceLog :=
  { status := "taken", taken := true, actual_time := some 0 }

/-- The delay the spec's formula `max(0, round((actualTime - scheduledTime)/60))`
prescribes, with `round` read as Python's `round` (nearest integer, ties to
even) of the real quotient `s / 60`.  This definition follows the spec's
words, for comparison against the source's `pyTruncDiv`. -/
def specRoundDelay (s : Int) : Int :=
  let q := Int.ediv s 60
  let r := Int.emod s 60
  if 2 * r < 60 then q
  else if 60 < 2 * r then q + 1
  else if q % 2 = 0 then q else q + 1

/-- One row of `medicine_schedules` (`backend/app/database.py`), the
materialized dose instance the `ReminderService` engine mutates.  The status
vocabulary is `pending | taken | missed | skipped`; a *Reminded* dose is a
`"pending"` row whose `reminder_sent` flag has been set by
`send_medicine_reminder` (the engine never stores a distinct "reminded"
status). -/
structure MedicineSchedule where
  id : Nat := 1
  medicine_id : Nat := 1
  scheduled_time : Int := 0
  status : String := "pending"
  reminder_sent : Bool := false
  deriving Repr, DecidableEq

/-- The per-dose state acted on by `ReminderService.check_missed_dose`
(reminder_service.py lines 144–165): the dose's `MedicineSchedule` row as the
database query returns it (`none` when the row has vanished), the dose's
adherence log, and the number of caregiver-escalation dispatches issued so far
(each `notify_caregivers_missed_dose` call counts one). -/
structure DoseState where
  schedule : Option MedicineSchedule
  log : AdherenceLog
  escalations : Nat
  deriving Repr, DecidableEq

/-- `ReminderService.check_missed_dose`: re-reads the schedule row; only when
it exists and its status is still `"pending"` does it set the status to
`"missed"` and dispatch one caregiver escalation; otherwise it does nothing.
It never touches the adherence log (in particular not `caregiver_notified`). -/
def check_missed_dose (st : DoseState) : DoseState :=
  match st.schedule with
  | some schedule =>
      if schedule.status == "pending" then
        { schedule := some { schedule with status := "missed" },
          log := st.log,
          escalations := st.escalations + 1 }
      else st
  | none => st

/-- A schedule row already confirmed as taken. -/
def takenSchedule : MedicineSchedule := { status := "taken" }

/-! ### Time-of-day parsing

`hour, minute = map(int, time_str.split(':'))` raises `ValueError` unless the
string splits into exactly two integer fields, and the subsequent
`time.replace(hour=..., minute=...)` / `CronTrigger(hour=..., minute=...)`
raises `ValueError` unless `0 ≤ hour < 24` and `0 ≤ minute < 60`.  `none`
models the raised `ValueError`.  Python strings are embedded as `List Char`
so that `split`/`startswith`/`in` become structurally recursive functions. -/

/-- `str.split(':')` on a character list. -/
def splitOnColon : List Char → List (List Char)
  | [] => [[]]
  | c :: rest =>
      let r := splitOnColon rest
      if c == ':' then [] :: r
      else
        match r with
        | [] => [[c]]
        | x :: xs => (c :: x) :: xs

/-- Accumulating decimal parser: fails on the first non-digit character. -/
def parseDigits : List Char → Nat → Option Nat
  | [], acc => some acc
  | c :: rest, acc =>
      if c.isDigit then parseDigits rest (10 * acc + (c.toNat - 48)) else none

/-- Python `int(s)` restricted to unsigned decimal strings (the inputs the
schedules carry); the empty string fails, as `int('')` does. -/
def parseNat (l : List Char) : Option Nat :=
  if l.isEmpty then none else parseDigits l 0

/-- Parse a `"HH:MM"` entry; `none` for every entry on which the source would
raise `ValueError`. -/
def parseHHMM (t : String) : Option (Nat × Nat) :=
  match splitOnColon t.data with
  | [hs, ms] =>
      match parseNat hs, parseNat ms with
      | some h, some m => if h < 24 && m < 60 then some (h, m) else none
      | _, _ => none
  | _ => none

/-! ### `ReminderService.schedule_medicine_reminders` (materialization)

The loop runs over calendar days `start_date.date() .. end_date.date()`
(inclusive) and, inside each day, over the medicine's time entries in order.
Timestamps are minutes since an epoch: day `d` at `h:m` is
`1440·d + 60·h + m`.  For each strictly-future timestamp the code does
`db.add(MedicineSchedule(...))` (a row committed only at the end) and
`scheduler.add_job(...)` (armed immediately, not transactional).  A malformed
time entry raises inside the loop; the outer handler then runs
`db.rollback()` — dropping every row added by this call — and returns
`False`, while the jobs already armed stay armed. -/

/-- Result of one `schedule_medicine_reminders` call: the committed dose rows,
the armed reminder timers (both as their timestamps — the timer's job id
`reminder_{medicine_id}_{iso}` is the medicine plus this timestamp), and
whether the call returned `True`. -/
structure ScheduleRunResult where
  rows : List Int
  jobs : List Int
  success : Bool
  deriving Repr, DecidableEq

/-- The day × time loop, in source order, over the flattened slot list. -/
def scheduleSlots (now : Int) : List (Nat × String) → List Int → List Int →
    ScheduleRunResult
  | [], rows, jobs => ⟨rows, jobs, true⟩
  | (d, t) :: rest, rows, jobs =>
      match parseHHMM t with
      | none => ⟨[], jobs, false⟩
      | some (h, m) =>
          let ts : Int := 1440 * d + 60 * h + m
          if now < ts then scheduleSlots now rest (rows ++ [ts]) (jobs ++ [ts])
          else scheduleSlots now rest rows jobs

/-- The slots the day loop visits: every day of `[startDay, endDay]`
(inclusive, as `current_date <= end_date.date()`), each paired with every
time entry. -/
def slotList (startDay endDay : Nat) (times : List String) :
    List (Nat × String) :=
  (List.range (endDay + 1 - startDay)).flatMap fun i =>
    times.map fun t => (startDay + i, t)

/-- `ReminderService.schedule_medicine_reminders` for a medicine whose
schedule window covers days `startDay..endDay` (the code uses
`end_date = medicine.end_date or start_date + 30 days`). -/
def schedule_medicine_reminders (startDay endDay : Nat) (times : List String)
    (now : Int) : ScheduleRunResult :=
  scheduleSlots now (slotList startDay endDay times) [] []

/-- `ReminderService.reschedule_all_user_reminders`, restricted to one
medicine and to its dose rows: `cancel_medicine_reminders` removes scheduler
jobs only — it never deletes `MedicineSchedule` rows — and the subsequent
`schedule_medicine_reminders` call appends a fresh batch of rows. -/
def reschedule_medicine_rows (oldRows : List Int) (startDay endDay : Nat)
    (times : List String) (now : Int) : List Int :=
  oldRows ++ (schedule_medicine_reminders startDay endDay times now).rows

/-! ### `SchedulerService` job registry (scheduler_service.py)

Jobs are keyed by string ids: recurring daily reminders get
`medicine_{medicine_id}_{user_id}_{HHMM}` (the time string with the colon
removed), and `cancel_medicine_reminders` removes each job whose id satisfies
`id.startswith(f"medicine_{mid}_{uid}") or
 (id.startswith("single_") and f"_{mid}_{uid}_" in id)`.
Ids are `List Char`; `natChars` is `str(n)` for a natural number. -/

/-- The decimal digit character of `d` (for `d < 10`). -/
def digitChar (d : Nat) : Char := Char.ofNat (48 + d)

/-- Most-significant-first decimal digits of `n`, with an explicit fuel
argument (`fuel ≥ n` suffices) to keep the recursion structural. -/
def natCharsAux : Nat → Nat → List Char
  | _, 0 => []
  | 0, _ + 1 => []
  | f + 1, n + 1 =>
      natCharsAux f ((n + 1) / 10) ++ [digitChar ((n + 1) % 10)]

/-- Python `str(n)` for a natural number. -/
def natChars (n : Nat) : List Char :=
  if n = 0 then ['0'] else natCharsAux n n

/-- Python `s.startswith(p)` on character lists (first argument the string,
second the candidate prefix). -/
def startsWithChars : List Char → List Char → Bool
  | _, [] => true
  | [], _ :: _ => false
  | c :: cs, p :: ps => c == p && startsWithChars cs ps

/-- Python `sub in s` on character lists. -/
def containsChars : List Char → List Char → Bool
  | [], sub => startsWithChars [] sub
  | c :: rest, sub => startsWithChars (c :: rest) sub || containsChars rest sub

/-- `time_str.replace(':', '')`. -/
def timeKey (t : String) : List Char := t.data.filter fun c => !(c == ':')

/-- A recurring daily reminder job armed by
`SchedulerService.schedule_medicine_reminder`: the cron trigger's hour and
minute plus the `HHMM` fragment of its job id. -/
structure RecurringJob where
  medicine_id : Nat
  user_id : Nat
  hour : Nat
  minute : Nat
  timeKey : List Char
  deriving Repr, DecidableEq

/-- The job id `f"medicine_{medicine_id}_{user_id}_{time_str.replace(':', '')}"`. -/
def recJobId (j : RecurringJob) : List Char :=
  "medicine_".data ++ natChars j.medicine_id
    ++ '_' :: natChars j.user_id ++ '_' :: j.timeKey

/-- The pattern `f"medicine_{medicine_id}_{user_id}"` that
`cancel_medicine_reminders` matches as a *prefix* of job ids. -/
def cancelPat (mid uid : Nat) : List Char :=
  "medicine_".data ++ natChars mid ++ '_' :: natChars uid

/-- The pattern `f"_{medicine_id}_{user_id}_"` matched as a substring of
`single_*` job ids. -/
def singleMarker (mid uid : Nat) : List Char :=
  '_' :: natChars mid ++ '_' :: natChars uid ++ ['_']

/-- The cancellation test of `SchedulerService.cancel_medicine_reminders`
(scheduler_service.py lines 199–205), Python operator precedence making it
`startswith(...) or (startswith("single_") and marker in id)`. -/
def cancelMatches (mid uid : Nat) (id : List Char) : Bool :=
  startsWithChars id (cancelPat mid uid)
    || (startsWithChars id "single_".data
        && containsChars id (singleMarker mid uid))

/-- `SchedulerService.cancel_medicine_reminders`: remove every job whose id
matches; the job store itself is otherwise untouched (the function has no
access to dose rows at all). -/
def cancel_medicine_reminders (mid uid : Nat) (reg : List RecurringJob) :
    List RecurringJob :=
  reg.filter fun j => !cancelMatches mid uid (recJobId j)

/-- `scheduler.add_job(..., id=job_id, replace_existing=True)`: replace the
entries carrying the same id in place, or append a new job. -/
def add_job_replace (reg : List RecurringJob) (j : RecurringJob) :
    List RecurringJob :=
  if reg.any fun k => recJobId k == recJobId j then
    reg.map fun k => if recJobId k == recJobId j then j else k
  else reg ++ [j]

/-- Fold a batch of jobs into the registry in order. -/
def add_jobs (reg : List RecurringJob) (js : List RecurringJob) :
    List RecurringJob :=
  js.foldl add_job_replace reg

/-- The jobs one `schedule_medicine_reminder` call arms: one per parseable
time entry (malformed entries are skipped by the inner
`except ValueError: continue`). -/
def parsedJobs (mid uid : Nat) (times : List String) : List RecurringJob :=
  times.filterMap fun t =>
    (parseHHMM t).map fun p =>
      { medicine_id := mid, user_id := uid, hour := p.1, minute := p.2,
        timeKey := timeKey t }

/-- `SchedulerService.schedule_medicine_reminder` (scheduler_service.py lines
85–141): iterate the time entries, skip the malformed ones, arm the rest with
`replace_existing=True`. -/
def schedule_medicine_reminder (mid uid : Nat) (times : List String)
    (reg : List RecurringJob) : List RecurringJob :=
  times.foldl
    (fun r t =>
      match parseHHMM t with
      | none => r
      | some p =>
          add_job_replace r
            { medicine_id := mid, user_id := uid, hour := p.1, minute := p.2,
              timeKey := timeKey t })
    reg

/-- `SchedulerService.update_medicine_schedule` (scheduler_service.py lines
339–365): cancel the medicine's jobs, then schedule the new times. -/
def update_medicine_schedule (mid uid : Nat) (times : List String)
    (reg : List RecurringJob) : List RecurringJob :=
  schedule_medicine_reminder mid uid times (cancel_medicine_reminders mid uid reg)

/-- Every entry of `reg` carrying `j`'s job id is `j` itself, and at least one
such entry is present — the state `add_job_replace` establishes for `j`. -/
def JobNormal (j : RecurringJob) (reg : List RecurringJob) : Prop :=
  (∃ k ∈ reg, recJobId k = recJobId j)
    ∧ ∀ k ∈ reg, recJobId k = recJobId j → k = j

/-- The timestamp a slot materializes to, when its time entry parses. -/
def parsedTs (p : Nat × String) : Option Int :=
  (parseHHMM p.2).map fun hm => 1440 * (p.1 : Int) + 60 * (hm.1 : Int) + (hm.2 : Int)

/-- A recurring job of an unrelated medicine (id 99, user 7). -/
def otherJob : RecurringJob :=
  { medicine_id := 99, user_id := 7, hour := 8, minute := 0,
    timeKey := ['0', '8', '0', '0'] }

/-! ### `ReminderService.snooze_reminder` -/

/-- A one-shot snooze job: `scheduler.add_job(send_medicine_reminder, ...,
args=[medicine_id, user_id, None], id=f"snooze_{medicine_id}_{iso}")` —
note the explicit `None` in place of a schedule id. -/
structure SnoozeJob where
  medicine_id : Nat
  fire_time : Int
  schedule_id : Option Nat
  deriving Repr, DecidableEq

/-- The state a snooze call could touch: the materialized dose rows, the
dose's adherence log, and the armed snooze jobs. -/
structure ReminderEngineState where
  doseRows : List MedicineSchedule
  log : AdherenceLog
  snoozeJobs : List SnoozeJob
  deriving Repr, DecidableEq

/-- `ReminderService.snooze_reminder` (reminder_service.py lines 167–191):
compute `snooze_time = now + minutes`, arm one job for it carrying
`schedule_id = None`, and return.  No database access happens: dose rows and
the adherence log (in particular `reminders_sent`) are untouched.  The job id
embeds the snooze time, so the `replace_existing=True` add appends. -/
def snooze_reminder (mid : Nat) (minutes now : Int) (st : ReminderEngineState) :
    ReminderEngineState :=
  let snooze_time := now + minutes
  { st with
      snoozeJobs := st.snoozeJobs
        ++ [{ medicine_id := mid, fire_time := snooze_time, schedule_id := none }] }

end MedReminder

namespace MedReminder

/-- C1 (corrected — counterexample): the transition operations do *not*
freeze a terminal status.  A dose whose status is the terminal `"taken"` is
moved to `"missed"` by `mark_as_missed`, contradicting the claim that a
transition applied to a terminal dose leaves the status unchanged. -/
theorem C1_terminal_counterexample :
    terminalStatus takenLog.status
    ∧ takenLog.mark_as_missed.status = "missed"
    ∧ takenLog.mark_as_missed.status ≠ takenLog.status := by
  refine ⟨Or.inl rfl, rfl, ?_⟩
  decide

/-- C1 (amended): `mark_as_taken`, `mark_as_missed` and `mark_as_skipped`
overwrite the status unconditionally — whatever the current status (terminal
included), each sets its own target status.  Terminal statuses are not
absorbing at the `AdherenceLog` layer; the only status guard in the engine is
the one inside the missed-dose check (see C2). -/
theorem C1_marks_overwrite_status (log : AdherenceLog) (a : Option Int)
    (d v r : Option String) (now : Int) :
    (log.mark_as_taken a d v now).status = "taken"
    ∧ log.mark_as_missed.status = "missed"
    ∧ (log.mark_as_skipped r).status = "skipped" := by
  unfold AdherenceLog.mark_as_taken AdherenceLog.mark_as_missed
    AdherenceLog.mark_as_skipped
  refine ⟨?_, rfl, ?_⟩ <;> dsimp only <;> split <;> try split
  all_goals rfl

/-- C3 (corrected — counterexample): a dose scheduled at second 0 and taken at
second 90 (1.5 minutes late) gets `delay_minutes = 1` from the code
(`int(90 / 60)` truncates), while the claimed formula
`max(0, round(90 / 60)) = round(1.5) = 2`. -/
theorem C3_round_counterexample :
    (({} : AdherenceLog).mark_as_taken (some 90) none none 0).delay_minutes = 1
    ∧ max 0 (specRoundDelay (90 - ({} : AdherenceLog).scheduled_time)) = 2
    ∧ (1 : Int) ≠ 2 := by
  refine ⟨?_, ?_, ?_⟩ <;> decide

/-- C3 (amended): for every dose confirmed as taken, `delay_minutes` equals
`max(0, ⌊(actualTime - scheduledTime)/60⌋)` — the code truncates the minute
quotient (`int()`) instead of rounding it; in particular a dose taken early
(actualTime ≤ scheduledTime) gets `delay_minutes = 0`. -/
theorem C3_delay_is_floor (log : AdherenceLog) (a now : Int)
    (d v : Option String) :
    (log.mark_as_taken (some a) d v now).delay_minutes
      = max 0 ((a - log.scheduled_time) / 60)
    ∧ (a ≤ log.scheduled_time →
        (log.mark_as_taken (some a) d v now).delay_minutes = 0) := by
  have hdelay : (log.mark_as_taken (some a) d v now).delay_minutes
      = max 0 (pyTruncDiv (a - log.scheduled_time) 60) := rfl
  have key : max 0 (pyTruncDiv (a - log.scheduled_time) 60)
      = max 0 ((a - log.scheduled_time) / 60) := by
    unfold pyTruncDiv
    split <;> omega
  refine ⟨by rw [hdelay, key], fun hle => ?_⟩
  rw [hdelay, key]
  omega

/-- C3 witness: a dose taken 30 seconds early gets delay 0, via
`C3_delay_is_floor` at concrete inputs. -/
theorem C3_delay_is_floor_witness :
    (({} : AdherenceLog).mark_as_taken (some (-30)) none none 0).delay_minutes = 0 :=
  (C3_delay_is_floor {} (-30) 0 none none).2 (by decide)

/-- C10 (confirmed): `is_overdue` is `false` for every resolved log
(taken, skipped or missed), whatever the tolerance and the current time; for
an unresolved log it is `true` exactly when the elapsed time strictly exceeds
the tolerance — with integer seconds, `(now - scheduled)/60 > t ↔
60·t < now - scheduled`. -/
theorem C10_is_overdue_spec (log : AdherenceLog) (t now : Int) :
    ((log.taken = true ∨ log.status = "skipped" ∨ log.status = "missed") →
      log.is_overdue t now = false)
    ∧ (log.taken = false → log.status ≠ "skipped" → log.status ≠ "missed" →
      (log.is_overdue t now = true ↔ 60 * t < now - log.scheduled_time)) := by
  unfold AdherenceLog.is_overdue
  constructor
  · rintro (h | h | h) <;> simp [h]
  · intro h1 h2 h3
    simp [h1, h2, h3]

/-- C2 (confirmed): a missed-dose check fired on a dose mutates the status to
`"missed"` and dispatches exactly one caregiver escalation **iff** the row is
present and its status is still `"pending"` (which covers both Pending and
Reminded doses — a reminded dose is a pending row with `reminder_sent = true`,
and the check ignores that flag); if the dose was already confirmed
(`"taken"` or `"skipped"`) the check changes nothing and dispatches
nothing. -/
theorem C2_missed_check_is_guarded (s : MedicineSchedule) (l : AdherenceLog)
    (e : Nat) :
    (check_missed_dose ⟨some s, l, e⟩
        = ⟨some { s with status := "missed" }, l, e + 1⟩ ↔ s.status = "pending")
    ∧ (s.status = "taken" ∨ s.status = "skipped" →
        check_missed_dose ⟨some s, l, e⟩ = ⟨some s, l, e⟩) := by
  by_cases h : s.status = "pending"
  · refine ⟨⟨fun _ => h, fun _ => by simp [check_missed_dose, h]⟩, fun hc => ?_⟩
    rcases hc with hc | hc <;> rw [hc] at h <;> exact absurd h (by decide)
  · refine ⟨⟨fun heq => ?_, fun hp => absurd hp h⟩, fun _ => ?_⟩
    · simp [check_missed_dose, h, DoseState.mk.injEq] at heq
    · simp [check_missed_dose, h]

/-- C2 witness: `C2_missed_check_is_guarded` at a concrete taken dose — the
check is a no-op and dispatches nothing. -/
theorem C2_missed_check_is_guarded_witness :
    check_missed_dose ⟨some takenSchedule, {}, 5⟩ = ⟨some takenSchedule, {}, 5⟩ :=
  (C2_missed_check_is_guarded takenSchedule {} 5).2 (Or.inl rfl)

/-- Helper: `check_missed_dose` is idempotent — the first firing either
resolves the dose to `"missed"` (so the guard fails afterwards) or finds it
already resolved. -/
theorem check_missed_dose_idem (st : DoseState) :
    check_missed_dose (check_missed_dose st) = check_missed_dose st := by
  obtain ⟨sched, l, e⟩ := st
  match sched with
  | none => rfl
  | some s =>
      by_cases h : s.status = "pending"
      · have hm : (("missed" : String) == "pending") = false := by decide
        simp [check_missed_dose, h, hm]
      · simp [check_missed_dose, h]

/-- C4 (confirmed): no matter how many times the missed-dose check logic is
invoked on a dose, every invocation after the first leaves the state (hence
the caregiver-notification side effect) unchanged; a single invocation never
touches the `caregiver_notified` flag and the whole sequence dispatches at
most one escalation beyond the starting count.  Together with
`notify_caregiver` only ever setting the flag to `true` (last conjunct), the
flag transitions `false→true` at most once per dose. -/
theorem C4_caregiver_notified_once (st : DoseState) (n : Nat) (now now' : Int) :
    check_missed_dose^[n + 1] st = check_missed_dose st
    ∧ (check_missed_dose st).log.caregiver_notified = st.log.caregiver_notified
    ∧ (check_missed_dose^[n] st).escalations ≤ st.escalations + 1
    ∧ (st.log.notify_caregiver now).caregiver_notified = true
    ∧ ((st.log.notify_caregiver now).notify_caregiver now').caregiver_notified
        = (st.log.notify_caregiver now).caregiver_notified := by
  have hiter : ∀ m, check_missed_dose^[m + 1] st = check_missed_dose st := by
    intro m
    induction m with
    | zero => rfl
    | succ k ih =>
        rw [Function.iterate_succ_apply', ih, check_missed_dose_idem]
  have hflag : (check_missed_dose st).log.caregiver_notified
      = st.log.caregiver_notified := by
    obtain ⟨sched, l, e⟩ := st
    match sched with
    | none => rfl
    | some s =>
        by_cases h : s.status = "pending" <;> simp [check_missed_dose, h]
  have hesc1 : (check_missed_dose st).escalations ≤ st.escalations + 1 := by
    obtain ⟨sched, l, e⟩ := st
    match sched with
    | none => exact Nat.le_succ e
    | some s =>
        by_cases h : s.status = "pending" <;> simp [check_missed_dose, h]
  refine ⟨hiter n, hflag, ?_, rfl, rfl⟩
  match n with
  | 0 => exact Nat.le_succ _
  | m + 1 => rw [hiter m]; exact hesc1

/-- C10 witness: `C10_is_overdue_spec` applied to a taken dose (never overdue)
and to a fresh pending dose 901 seconds late with a 15-minute tolerance. -/
theorem C10_is_overdue_spec_witness :
    takenLog.is_overdue 15 100000 = false
    ∧ (({} : AdherenceLog).is_overdue 15 901 = true
        ↔ 60 * 15 < 901 - ({} : AdherenceLog).scheduled_time) :=
  ⟨(C10_is_overdue_spec takenLog 15 100000).1 (Or.inl rfl),
   (C10_is_overdue_spec {} 15 901).2 rfl (by decide) (by decide)⟩

/-! ### Helper lemmas on character lists and decimal renderings -/

theorem startsWithChars_append_left (p r : List Char) :
    startsWithChars (p ++ r) p = true := by
  induction p with
  | nil => cases r <;> rfl
  | cons c cs ih => simp [startsWithChars, ih]

theorem startsWithChars_append_same (a s p : List Char) :
    startsWithChars (a ++ s) (a ++ p) = startsWithChars s p := by
  induction a with
  | nil => rfl
  | cons c cs ih => simp [startsWithChars, ih]

/-- Two underscore-free segments followed by underscores line up: if
`s' ++ '_' :: r'` starts with `s ++ '_' :: r` then `s = s'` and `r'` starts
with `r`. -/
theorem seg_eq_of_startsWith {s s' r r' : List Char}
    (hs : ∀ c ∈ s, c ≠ '_') (hs' : ∀ c ∈ s', c ≠ '_')
    (h : startsWithChars (s' ++ '_' :: r') (s ++ '_' :: r) = true) :
    s = s' ∧ startsWithChars r' r = true := by
  induction s generalizing s' with
  | nil =>
      cases s' with
      | nil =>
          refine ⟨rfl, ?_⟩
          simpa [startsWithChars] using h
      | cons c cs =>
          exfalso
          have hc : c ≠ '_' := hs' c (by simp)
          simp [startsWithChars] at h
          exact hc h.1
  | cons c cs ih =>
      cases s' with
      | nil =>
          exfalso
          have hc : c ≠ '_' := hs c (by simp)
          simp [startsWithChars] at h
          exact hc h.1.symm
      | cons c' cs' =>
          simp only [List.cons_append, startsWithChars, Bool.and_eq_true,
            beq_iff_eq] at h
          obtain ⟨hcc, hrest⟩ := h
          obtain ⟨hcs, hr⟩ := ih (fun x hx => hs x (by simp [hx]))
            (fun x hx => hs' x (by simp [hx])) hrest
          exact ⟨by rw [hcc, hcs], hr⟩

theorem digitChar_lt10_inj : ∀ a < 10, ∀ b < 10, digitChar a = digitChar b → a = b := by
  decide

theorem digitChar_ne_underscore : ∀ d < 10, digitChar d ≠ '_' := by decide

theorem natCharsAux_mem {f n : Nat} {c : Char} (h : c ∈ natCharsAux f n) :
    ∃ d, d < 10 ∧ c = digitChar d := by
  induction f generalizing n with
  | zero => cases n <;> simp [natCharsAux] at h
  | succ f ih =>
      cases n with
      | zero => simp [natCharsAux] at h
      | succ n =>
          simp only [natCharsAux, List.mem_append, List.mem_singleton] at h
          rcases h with h1 | h2
          · exact ih h1
          · exact ⟨(n + 1) % 10, Nat.mod_lt _ (by norm_num), h2⟩

theorem natCharsAux_eq_nil {f n : Nat} (hn : n ≤ f) :
    natCharsAux f n = [] ↔ n = 0 := by
  constructor
  · intro h
    by_contra hne
    obtain ⟨m, rfl⟩ : ∃ m, n = m + 1 := ⟨n - 1, by omega⟩
    obtain ⟨g, rfl⟩ : ∃ g, f = g + 1 := ⟨f - 1, by omega⟩
    simp [natCharsAux] at h
  · rintro rfl
    cases f <;> rfl

theorem append_singleton_inj {l l' : List Char} {a b : Char}
    (h : l ++ [a] = l' ++ [b]) : l = l' ∧ a = b := by
  have h2 := congrArg List.reverse h
  simp only [List.reverse_append, List.reverse_cons, List.reverse_nil,
    List.nil_append, List.singleton_append, List.cons.injEq] at h2
  exact ⟨by
    have := congrArg List.reverse h2.2
    simpa using this, h2.1⟩

theorem natCharsAux_inj : ∀ f g n m, n ≤ f → m ≤ g → n ≠ 0 → m ≠ 0 →
    natCharsAux f n = natCharsAux g m → n = m := by
  intro f
  induction f with
  | zero => intro g n m h1 _ hn _ _; omega
  | succ f ih =>
      intro g n m h1 h2 hn hm heq
      obtain ⟨n', rfl⟩ : ∃ k, n = k + 1 := ⟨n - 1, by omega⟩
      obtain ⟨m', rfl⟩ : ∃ k, m = k + 1 := ⟨m - 1, by omega⟩
      obtain ⟨g', rfl⟩ : ∃ k, g = k + 1 := ⟨g - 1, by omega⟩
      simp only [natCharsAux] at heq
      obtain ⟨hpre, hdig⟩ := append_singleton_inj heq
      have hmod : (n' + 1) % 10 = (m' + 1) % 10 :=
        digitChar_lt10_inj _ (Nat.mod_lt _ (by norm_num)) _
          (Nat.mod_lt _ (by norm_num)) hdig
      by_cases hz : (n' + 1) / 10 = 0
      · by_cases hz' : (m' + 1) / 10 = 0
        · omega
        · exfalso
          rw [hz] at hpre
          have hnil : natCharsAux g' ((m' + 1) / 10) = [] := by
            rw [← hpre]; cases f <;> rfl
          rw [natCharsAux_eq_nil (by omega)] at hnil
          exact hz' hnil
      · by_cases hz' : (m' + 1) / 10 = 0
        · exfalso
          rw [hz'] at hpre
          have hnil : natCharsAux f ((n' + 1) / 10) = [] := by
            rw [hpre]; cases g' <;> rfl
          rw [natCharsAux_eq_nil (by omega)] at hnil
          exact hz hnil
        · have := ih g' ((n' + 1) / 10) ((m' + 1) / 10) (by omega) (by omega)
            hz hz' hpre
          omega

theorem natChars_inj {n m : Nat} (h : natChars n = natChars m) : n = m := by
  unfold natChars at h
  by_cases hn : n = 0 <;> by_cases hm : m = 0
  · omega
  · exfalso
    rw [if_pos hn, if_neg hm] at h
    obtain ⟨m', rfl⟩ : ∃ k, m = k + 1 := ⟨m - 1, by omega⟩
    simp only [natCharsAux] at h
    have h' : natCharsAux m' ((m' + 1) / 10) ++ [digitChar ((m' + 1) % 10)]
        = [] ++ ['0'] := h.symm
    obtain ⟨hpre, hdig⟩ := append_singleton_inj h'
    have hd0 : (m' + 1) % 10 = 0 :=
      digitChar_lt10_inj _ (Nat.mod_lt _ (by norm_num)) 0 (by norm_num) hdig
    have hq0 : (m' + 1) / 10 = 0 := by
      rw [natCharsAux_eq_nil (by omega)] at hpre
      exact hpre
    omega
  · exfalso
    rw [if_neg hn, if_pos hm] at h
    obtain ⟨n', rfl⟩ : ∃ k, n = k + 1 := ⟨n - 1, by omega⟩
    simp only [natCharsAux] at h
    have h' : natCharsAux n' ((n' + 1) / 10) ++ [digitChar ((n' + 1) % 10)]
        = [] ++ ['0'] := h
    obtain ⟨hpre, hdig⟩ := append_singleton_inj h'
    have hd0 : (n' + 1) % 10 = 0 :=
      digitChar_lt10_inj _ (Nat.mod_lt _ (by norm_num)) 0 (by norm_num) hdig
    have hq0 : (n' + 1) / 10 = 0 := by
      rw [natCharsAux_eq_nil (by omega)] at hpre
      exact hpre
    omega
  · rw [if_neg hn, if_neg hm] at h
    exact natCharsAux_inj n m n m le_rfl le_rfl hn hm h

theorem natChars_no_underscore (n : Nat) : ∀ c ∈ natChars n, c ≠ '_' := by
  intro c hc
  unfold natChars at hc
  split at hc
  · simp at hc
    subst hc
    decide
  · obtain ⟨d, hd, rfl⟩ := natCharsAux_mem hc
    exact digitChar_ne_underscore d hd

/-! ### Job-id lemmas for `SchedulerService` cancellation -/

/-- Every job's own id starts with its own `medicine_{mid}_{uid}` pattern. -/
theorem recJobId_startsWith_own (j : RecurringJob) :
    startsWithChars (recJobId j) (cancelPat j.medicine_id j.user_id) = true := by
  have h : recJobId j
      = cancelPat j.medicine_id j.user_id ++ '_' :: j.timeKey := rfl
  rw [h, startsWithChars_append_left]

/-- A job of a different medicine never matches the cancellation test: the
decimal medicine ids are underscore-free, so the prefix comparison aligns
them, and distinct ids render distinctly; the `single_` branch fails on the
first character. -/
theorem cancelMatches_other_medicine {j : RecurringJob} {mid uid : Nat}
    (hne : j.medicine_id ≠ mid) :
    cancelMatches mid uid (recJobId j) = false := by
  unfold cancelMatches
  have h1 : startsWithChars (recJobId j) (cancelPat mid uid) = false := by
    rcases hT : startsWithChars (recJobId j) (cancelPat mid uid) with _ | _
    · rfl
    · exfalso
      have hL : recJobId j = "medicine_".data
          ++ (natChars j.medicine_id
              ++ '_' :: (natChars j.user_id ++ '_' :: j.timeKey)) := by
        simp [recJobId, List.append_assoc]
      have hR : cancelPat mid uid = "medicine_".data
          ++ (natChars mid ++ '_' :: natChars uid) := by
        simp [cancelPat, List.append_assoc]
      rw [hL, hR, startsWithChars_append_same] at hT
      have hseg := seg_eq_of_startsWith (natChars_no_underscore mid)
        (natChars_no_underscore j.medicine_id) hT
      exact hne (natChars_inj hseg.1.symm)
  have h2 : startsWithChars (recJobId j) "single_".data = false := rfl
  rw [h1, h2]
  rfl

/-- C7 (corrected — counterexample): cancelling medicine 1 for user 2 also
removes the armed timer of medicine 1 *user 23*, because
`"medicine_1_23_0800".startswith("medicine_1_2")` holds — a timer of another
user does not remain armed. -/
theorem C7_other_user_timer_removed :
    ({ medicine_id := 1, user_id := 23, hour := 8, minute := 0,
       timeKey := ['0', '8', '0', '0'] } : RecurringJob).user_id ≠ 2
    ∧ cancel_medicine_reminders 1 2
        [{ medicine_id := 1, user_id := 23, hour := 8, minute := 0,
           timeKey := ['0', '8', '0', '0'] }] = [] := by
  exact ⟨by decide, by decide⟩

/-- C7 (amended): `cancel_medicine_reminders mid uid` removes every armed
timer of the (mid, uid) pair; every timer of a *different medicine* remains
armed and unchanged (the result is a sublist of the registry — cancellation
only removes jobs, and it never touches dose rows, which the function has no
access to); but a timer of the *same medicine and another user* can also be
removed when the decimal rendering of `uid` is a prefix of the other user's
id (see the counterexample). -/
theorem C7_cancel_scope (mid uid : Nat) (reg : List RecurringJob) :
    (∀ j ∈ reg, j.medicine_id = mid → j.user_id = uid →
        j ∉ cancel_medicine_reminders mid uid reg)
    ∧ (∀ j ∈ reg, j.medicine_id ≠ mid →
        j ∈ cancel_medicine_reminders mid uid reg)
    ∧ (cancel_medicine_reminders mid uid reg).Sublist reg := by
  refine ⟨?_, ?_, List.filter_sublist _⟩
  · intro j hj hm hu hmem
    have h := List.of_mem_filter hmem
    have hown : startsWithChars (recJobId j) (cancelPat mid uid) = true := by
      have hj' := recJobId_startsWith_own j
      rw [hm, hu] at hj'
      exact hj'
    unfold cancelMatches at h
    rw [hown] at h
    simp at h
  · intro j hj hne
    refine List.mem_filter.mpr ⟨hj, ?_⟩
    rw [cancelMatches_other_medicine hne]
    rfl

/-- C7 witness: `C7_cancel_scope` at a concrete registry — the timer of the
unrelated medicine 99 survives `cancel_medicine_reminders 1 2`. -/
theorem C7_cancel_scope_witness :
    otherJob ∈ cancel_medicine_reminders 1 2 [otherJob] :=
  (C7_cancel_scope 1 2 [otherJob]).2.1 otherJob (by simp) (by decide)

/-! ### `replace_existing` registry lemmas -/

theorem add_job_replace_normal (reg : List RecurringJob) (j : RecurringJob) :
    JobNormal j (add_job_replace reg j) := by
  unfold add_job_replace JobNormal
  split
  · rename_i hany
    simp only [List.any_eq_true] at hany
    obtain ⟨k₀, hk₀, hbeq⟩ := hany
    constructor
    · refine ⟨j, List.mem_map.mpr ⟨k₀, hk₀, ?_⟩, rfl⟩
      rw [if_pos hbeq]
    · intro k hk hid
      obtain ⟨a, ha, hak⟩ := List.mem_map.mp hk
      by_cases hc : (recJobId a == recJobId j) = true
      · rw [if_pos hc] at hak
        exact hak.symm
      · rw [if_neg hc] at hak
        subst hak
        exact absurd (beq_iff_eq.mpr hid) hc
  · rename_i hany
    constructor
    · exact ⟨j, List.mem_append.mpr (Or.inr (by simp)), rfl⟩
    · intro k hk hid
      rcases List.mem_append.mp hk with hk | hk
      · have hc : (reg.any fun k => recJobId k == recJobId j) = true :=
          List.any_eq_true.mpr ⟨k, hk, beq_iff_eq.mpr hid⟩
        exact absurd hc hany
      · simpa using hk

theorem add_job_replace_of_normal {reg : List RecurringJob} {j : RecurringJob}
    (h : JobNormal j reg) : add_job_replace reg j = reg := by
  obtain ⟨⟨k₀, hk₀, hid₀⟩, hall⟩ := h
  have hany : (reg.any fun k => recJobId k == recJobId j) = true :=
    List.any_eq_true.mpr ⟨k₀, hk₀, beq_iff_eq.mpr hid₀⟩
  unfold add_job_replace
  rw [if_pos hany]
  have hpt : ∀ k ∈ reg,
      (if recJobId k == recJobId j then j else k) = id k := by
    intro k hk
    by_cases hc : (recJobId k == recJobId j) = true
    · rw [if_pos hc]
      exact (hall k hk (beq_iff_eq.mp hc)).symm
    · rw [if_neg hc]
      rfl
  rw [List.map_congr_left hpt, List.map_id]

theorem JobNormal_add_other {j jp : RecurringJob} {reg : List RecurringJob}
    (hne : recJobId jp ≠ recJobId j) (h : JobNormal j reg) :
    JobNormal j (add_job_replace reg jp) := by
  obtain ⟨⟨k₀, hk₀, hid₀⟩, hall⟩ := h
  unfold add_job_replace
  split
  · constructor
    · refine ⟨k₀, List.mem_map.mpr ⟨k₀, hk₀, ?_⟩, hid₀⟩
      rw [if_neg ?_]
      intro hc
      exact hne ((beq_iff_eq.mp hc).symm.trans hid₀)
    · intro k hk hid
      obtain ⟨a, ha, hak⟩ := List.mem_map.mp hk
      by_cases hc : (recJobId a == recJobId jp) = true
      · rw [if_pos hc] at hak
        subst hak
        exact absurd hid hne
      · rw [if_neg hc] at hak
        subst hak
        exact hall a ha hid
  · constructor
    · exact ⟨k₀, List.mem_append.mpr (Or.inl hk₀), hid₀⟩
    · intro k hk hid
      rcases List.mem_append.mp hk with hk | hk
      · exact hall k hk hid
      · simp only [List.mem_singleton] at hk
        subst hk
        exact absurd hid hne

theorem JobNormal_add_jobs {j : RecurringJob} {js : List RecurringJob}
    (hne : ∀ jp ∈ js, recJobId jp ≠ recJobId j) :
    ∀ reg, JobNormal j reg → JobNormal j (add_jobs reg js) := by
  induction js with
  | nil => intro reg h; exact h
  | cons a rest ih =>
      intro reg h
      exact ih (fun x hx => hne x (by simp [hx])) _
        (JobNormal_add_other (hne a (by simp)) h)

theorem JobNormal_mem_add_jobs {js : List RecurringJob}
    (hnd : (js.map recJobId).Nodup) :
    ∀ reg, ∀ j ∈ js, JobNormal j (add_jobs reg js) := by
  induction js with
  | nil => intro reg j hj; simp at hj
  | cons a rest ih =>
      intro reg j hj
      simp only [List.map_cons, List.nodup_cons] at hnd
      obtain ⟨hna, hndr⟩ := hnd
      have hstep : add_jobs reg (a :: rest) = add_jobs (add_job_replace reg a) rest := rfl
      rcases List.mem_cons.mp hj with rfl | hj'
      · rw [hstep]
        refine JobNormal_add_jobs ?_ _ (add_job_replace_normal reg j)
        intro jp hjp he
        exact hna (he ▸ List.mem_map_of_mem recJobId hjp)
      · rw [hstep]
        exact ih hndr _ j hj'

theorem add_jobs_fixed {js : List RecurringJob} :
    ∀ R, (∀ j ∈ js, JobNormal j R) → add_jobs R js = R := by
  induction js with
  | nil => intro R _; rfl
  | cons a rest ih =>
      intro R h
      have hstep : add_jobs R (a :: rest) = add_jobs (add_job_replace R a) rest := rfl
      rw [hstep, add_job_replace_of_normal (h a (by simp))]
      exact ih R fun j hj => h j (by simp [hj])

/-- `replace_existing=True` makes re-arming the same batch of jobs a no-op. -/
theorem add_jobs_idem {js : List RecurringJob} (hnd : (js.map recJobId).Nodup)
    (reg : List RecurringJob) :
    add_jobs (add_jobs reg js) js = add_jobs reg js :=
  add_jobs_fixed _ (JobNormal_mem_add_jobs hnd reg)

/-- Arming a batch of fresh-id jobs into a registry that carries none of their
ids appends them. -/
theorem add_jobs_append_of_fresh {js : List RecurringJob} :
    ∀ reg, (∀ j ∈ js, ∀ k ∈ reg, recJobId k ≠ recJobId j) →
      (js.map recJobId).Nodup →
      add_jobs reg js = reg ++ add_jobs [] js := by
  induction js with
  | nil => intro reg _ _; simp [add_jobs]
  | cons a rest ih =>
      intro reg hfree hnd
      simp only [List.map_cons, List.nodup_cons] at hnd
      obtain ⟨hna, hndr⟩ := hnd
      have hfalse : ¬(reg.any fun k => recJobId k == recJobId a) = true := by
        simp only [List.any_eq_true]
        rintro ⟨k, hk, hbeq⟩
        exact hfree a (by simp) k hk (beq_iff_eq.mp hbeq)
      have hadd : add_job_replace reg a = reg ++ [a] := by
        unfold add_job_replace
        rw [if_neg hfalse]
      have hrest_ne : ∀ j ∈ rest, recJobId a ≠ recJobId j := by
        intro j hj he
        exact hna (he ▸ List.mem_map_of_mem recJobId hj)
      have hstep : add_jobs reg (a :: rest) = add_jobs (add_job_replace reg a) rest := rfl
      have hstep0 : add_jobs [] (a :: rest) = add_jobs [a] rest := rfl
      rw [hstep, hstep0, hadd]
      rw [ih (reg ++ [a]) ?hf2 hndr, ih [a] ?hf3 hndr]
      · simp [List.append_assoc]
      case hf2 =>
        intro j hj k hk
        rcases List.mem_append.mp hk with hk | hk
        · exact hfree j (by simp [hj]) k hk
        · simp only [List.mem_singleton] at hk
          subst hk
          exact hrest_ne j hj
      case hf3 =>
        intro j hj k hk
        simp only [List.mem_singleton] at hk
        subst hk
        exact hrest_ne j hj

/-- One `schedule_medicine_reminder` call is the fold of its parseable jobs. -/
theorem schedule_eq_add_jobs (mid uid : Nat) (times : List String) :
    ∀ reg, schedule_medicine_reminder mid uid times reg
      = add_jobs reg (parsedJobs mid uid times) := by
  induction times with
  | nil => intro reg; rfl
  | cons t rest ih =>
      intro reg
      cases hp : parseHHMM t with
      | none =>
          have h1 : schedule_medicine_reminder mid uid (t :: rest) reg
              = schedule_medicine_reminder mid uid rest reg := by
            simp [schedule_medicine_reminder, hp]
          have h2 : parsedJobs mid uid (t :: rest) = parsedJobs mid uid rest := by
            simp [parsedJobs, hp]
          rw [h1, h2, ih]
      | some p =>
          have h1 : schedule_medicine_reminder mid uid (t :: rest) reg
              = schedule_medicine_reminder mid uid rest
                  (add_job_replace reg
                    { medicine_id := mid, user_id := uid, hour := p.1,
                      minute := p.2, timeKey := timeKey t }) := by
            simp [schedule_medicine_reminder, hp]
          have h2 : parsedJobs mid uid (t :: rest)
              = { medicine_id := mid, user_id := uid, hour := p.1,
                  minute := p.2, timeKey := timeKey t } :: parsedJobs mid uid rest := by
            simp [parsedJobs, hp]
          rw [h1, h2, ih]
          rfl

/-- C6 (corrected — counterexample): rescheduling is *not* equivalent to a
fresh schedule at the dose-instance level.  After one successful
materialization of a single 08:00 dose, a reschedule (cancel — which removes
scheduler jobs only — followed by schedule) leaves the dose table with two
rows for the same timestamp, while a fresh call on an unscheduled medicine
creates one. -/
theorem C6_duplicate_rows_counterexample :
    reschedule_medicine_rows
        (schedule_medicine_reminders 0 0 ["08:00"] (-1)).rows 0 0 ["08:00"] (-1)
      = [480, 480]
    ∧ (schedule_medicine_reminders 0 0 ["08:00"] (-1)).rows = [480]
    ∧ ([480, 480] : List Int) ≠ [480] :=
  ⟨by decide, by decide, by decide⟩

/-- C6 (amended): at the *timer* level the claim holds for the
`SchedulerService` registry: `update_medicine_schedule` is literally cancel
followed by schedule; re-invoking `schedule_medicine_reminder` with the same
times (whose job ids are distinct) is idempotent — existing timers with
identical `(medicineId, time)` ids are replaced, never duplicated; and an
update equals the cancelled registry with exactly the jobs of a fresh call on
an empty registry appended.  At the *dose-instance* level the claim fails:
`ReminderService` rescheduling appends a fresh batch of `MedicineSchedule`
rows while cancellation deletes none, so duplicate dose instances are
created (last conjunct, refuting equivalence with a fresh call — see the
counterexample). -/
theorem C6_reschedule_timers (mid uid : Nat) (times : List String)
    (reg : List RecurringJob)
    (hnd : ((parsedJobs mid uid times).map recJobId).Nodup) :
    update_medicine_schedule mid uid times reg
        = schedule_medicine_reminder mid uid times
            (cancel_medicine_reminders mid uid reg)
    ∧ schedule_medicine_reminder mid uid times
        (schedule_medicine_reminder mid uid times reg)
        = schedule_medicine_reminder mid uid times reg
    ∧ update_medicine_schedule mid uid times reg
        = cancel_medicine_reminders mid uid reg
          ++ schedule_medicine_reminder mid uid times []
    ∧ (∀ oldRows sd ed ts nw,
        reschedule_medicine_rows oldRows sd ed ts nw
          = oldRows ++ (schedule_medicine_reminders sd ed ts nw).rows) := by
  refine ⟨rfl, ?_, ?_, fun _ _ _ _ _ => rfl⟩
  · rw [schedule_eq_add_jobs, schedule_eq_add_jobs]
    exact add_jobs_idem hnd reg
  · show schedule_medicine_reminder mid uid times
        (cancel_medicine_reminders mid uid reg)
      = cancel_medicine_reminders mid uid reg
        ++ schedule_medicine_reminder mid uid times []
    rw [schedule_eq_add_jobs, schedule_eq_add_jobs]
    apply add_jobs_append_of_fresh _ ?_ hnd
    intro j hj k hk heq
    have hk' := List.of_mem_filter hk
    obtain ⟨t, ht, hjt⟩ := List.mem_filterMap.mp hj
    have hj_ids : j.medicine_id = mid ∧ j.user_id = uid := by
      cases hp : parseHHMM t with
      | none => rw [hp] at hjt; simp at hjt
      | some p =>
          rw [hp] at hjt
          simp only [Option.map_some', Option.some.injEq] at hjt
          subst hjt
          exact ⟨rfl, rfl⟩
    have hsw : startsWithChars (recJobId j) (cancelPat mid uid) = true := by
      have h0 := recJobId_startsWith_own j
      rw [hj_ids.1, hj_ids.2] at h0
      exact h0
    rw [← heq] at hsw
    unfold cancelMatches at hk'
    rw [hsw] at hk'
    simp at hk'

/-- C6 witness: `C6_reschedule_timers` at a concrete two-entry schedule —
re-invoking the scheduling call is a registry no-op. -/
theorem C6_reschedule_timers_witness :
    schedule_medicine_reminder 1 2 ["08:00", "20:00"]
        (schedule_medicine_reminder 1 2 ["08:00", "20:00"] [])
      = schedule_medicine_reminder 1 2 ["08:00", "20:00"] [] :=
  (C6_reschedule_timers 1 2 ["08:00", "20:00"] [] (by decide)).2.1

/-- C8 (corrected — counterexample): snoozing does *not* increment
`reminders_sent` (the call performs no database access at all), and the armed
timer does not reuse the dose's id — the job is created with
`args=[medicine_id, user_id, None]`, i.e. `schedule_id = None`. -/
theorem C8_snooze_counterexample :
    (snooze_reminder 1 5 1000 ⟨[{}], {}, []⟩).log.reminders_sent = 0
    ∧ ¬((snooze_reminder 1 5 1000 ⟨[{}], {}, []⟩).log.reminders_sent
        = ({} : AdherenceLog).reminders_sent + 1)
    ∧ ∀ j ∈ (snooze_reminder 1 5 1000 ⟨[{}], {}, []⟩).snoozeJobs,
        j.schedule_id = none := by
  refine ⟨rfl, by decide, by decide⟩

/-- C8 (amended): snoozing by `d` minutes arms exactly one new one-shot timer
for `now + d` (carrying no dose id: `schedule_id = None`), creates no new
`MedicineSchedule` dose row, and leaves the dose's log — its status and
`reminders_sent` included — completely unchanged. -/
theorem C8_snooze_frame (mid : Nat) (minutes now : Int)
    (st : ReminderEngineState) :
    (snooze_reminder mid minutes now st).snoozeJobs
      = st.snoozeJobs
        ++ [{ medicine_id := mid, fire_time := now + minutes,
              schedule_id := none }]
    ∧ (snooze_reminder mid minutes now st).doseRows = st.doseRows
    ∧ (snooze_reminder mid minutes now st).log = st.log
    ∧ (snooze_reminder mid minutes now st).snoozeJobs.length
        = st.snoozeJobs.length + 1 := by
  refine ⟨rfl, rfl, rfl, ?_⟩
  simp [snooze_reminder]

/-! ### C9: malformed time-of-day entries -/

/-- `SchedulerService.schedule_medicine_reminder` skips a malformed entry:
removing it from the list leaves the registry result unchanged. -/
theorem schedule_skips_malformed (mid uid : Nat) {bad : String}
    (hbad : parseHHMM bad = none) (ts1 ts2 : List String) :
    ∀ reg, schedule_medicine_reminder mid uid (ts1 ++ bad :: ts2) reg
      = schedule_medicine_reminder mid uid (ts1 ++ ts2) reg := by
  induction ts1 with
  | nil =>
      intro reg
      simp [schedule_medicine_reminder, hbad]
  | cons t rest ih =>
      intro reg
      exact ih _

/-- `ReminderService.schedule_medicine_reminders` aborts on a malformed
entry: any malformed slot anywhere in the walk makes the call fail with all
dose rows rolled back. -/
theorem scheduleSlots_aborts {slots : List (Nat × String)} {p : Nat × String}
    (hp : p ∈ slots) (hpp : parseHHMM p.2 = none) (now : Int) :
    ∀ rows jobs, (scheduleSlots now slots rows jobs).success = false
      ∧ (scheduleSlots now slots rows jobs).rows = [] := by
  induction slots with
  | nil => simp at hp
  | cons q rest ih =>
      intro rows jobs
      obtain ⟨d, t⟩ := q
      cases hq : parseHHMM t with
      | none => simp [scheduleSlots, hq]
      | some hm =>
          have hpr : p ∈ rest := by
            rcases List.mem_cons.mp hp with rfl | h
            · rw [hpp] at hq
              cases hq
            · exact h
          simp only [scheduleSlots, hq]
          split
          · exact ih hpr _ _
          · exact ih hpr _ _

/-- C9 (corrected — counterexample): with times
`["08:00", "8am", "20:00"]` and every slot in the future, the
`ReminderService` materialization returns failure with *no* dose rows — the
well-formed entries are not materialized and the rows added before the
malformed entry are rolled back (while the timer already armed for 08:00
stays armed, the scheduler not being transactional); dropping the malformed
entry yields both rows. -/
theorem C9_abort_counterexample :
    schedule_medicine_reminders 0 0 ["08:00", "8am", "20:00"] (-1)
      = ⟨[], [480], false⟩
    ∧ (schedule_medicine_reminders 0 0 ["08:00", "20:00"] (-1)).rows
      = [480, 1200] :=
  ⟨by decide, by decide⟩

/-- C9 (amended): the skip-and-continue behaviour holds only for
`SchedulerService.schedule_medicine_reminder`, where a malformed entry is a
no-op and every remaining well-formed entry is still armed; in
`ReminderService.schedule_medicine_reminders` a malformed entry anywhere
aborts the whole call — it returns failure and every dose row of the call is
rolled back. -/
theorem C9_malformed_entry_paths (mid uid : Nat) (ts1 ts2 : List String)
    (bad : String) (hbad : parseHHMM bad = none) (reg : List RecurringJob)
    (slots : List (Nat × String)) (p : Nat × String) (hp : p ∈ slots)
    (hpp : parseHHMM p.2 = none) (now : Int) (rows jobs : List Int) :
    schedule_medicine_reminder mid uid (ts1 ++ bad :: ts2) reg
      = schedule_medicine_reminder mid uid (ts1 ++ ts2) reg
    ∧ (scheduleSlots now slots rows jobs).success = false
    ∧ (scheduleSlots now slots rows jobs).rows = [] :=
  ⟨schedule_skips_malformed mid uid hbad ts1 ts2 reg,
   (scheduleSlots_aborts hp hpp now rows jobs).1,
   (scheduleSlots_aborts hp hpp now rows jobs).2⟩

/-! ### C5: two-day materialization -/

/-- Every slot the materialization walks contributes a dose row and a timer
only when its timestamp is strictly in the future. -/
theorem scheduleSlots_future (slots : List (Nat × String)) (now : Int) :
    ∀ rows jobs, (∀ x ∈ rows, now < x) → (∀ x ∈ jobs, now < x) →
      (∀ x ∈ (scheduleSlots now slots rows jobs).rows, now < x)
      ∧ (∀ x ∈ (scheduleSlots now slots rows jobs).jobs, now < x) := by
  induction slots with
  | nil => intro rows jobs h1 h2; exact ⟨h1, h2⟩
  | cons q rest ih =>
      intro rows jobs h1 h2
      obtain ⟨d, t⟩ := q
      cases hq : parseHHMM t with
      | none =>
          simp only [scheduleSlots, hq]
          exact ⟨by simp, h2⟩
      | some hm =>
          obtain ⟨h, m⟩ := hm
          simp only [scheduleSlots, hq]
          split
          · rename_i hlt
            apply ih
            · intro x hx
              rcases List.mem_append.mp hx with hx | hx
              · exact h1 x hx
              · simp only [List.mem_singleton] at hx
                subst hx
                exact hlt
            · intro x hx
              rcases List.mem_append.mp hx with hx | hx
              · exact h2 x hx
              · simp only [List.mem_singleton] at hx
                subst hx
                exact hlt
          · exact ih _ _ h1 h2

/-- When every slot parses and is strictly in the future, the materialization
succeeds and commits exactly one row and one timer per slot, in walk order. -/
theorem scheduleSlots_run {slots : List (Nat × String)} {now : Int}
    (hall : ∀ p ∈ slots, ∃ ts, parsedTs p = some ts ∧ now < ts) :
    ∀ rows jobs, scheduleSlots now slots rows jobs
      = ⟨rows ++ slots.filterMap parsedTs, jobs ++ slots.filterMap parsedTs,
         true⟩ := by
  induction slots with
  | nil => intro rows jobs; simp [scheduleSlots]
  | cons q rest ih =>
      intro rows jobs
      obtain ⟨ts, hts, hlt⟩ := hall q (by simp)
      obtain ⟨d, t⟩ := q
      cases hq : parseHHMM t with
      | none =>
          exfalso
          unfold parsedTs at hts
          rw [hq] at hts
          simp at hts
      | some hm =>
          obtain ⟨h, m⟩ := hm
          unfold parsedTs at hts
          rw [hq] at hts
          simp only [Option.map_some', Option.some.injEq] at hts
          have hfm : List.filterMap parsedTs ((d, t) :: rest)
              = ts :: List.filterMap parsedTs rest := by
            simp [List.filterMap_cons, parsedTs, hq, hts]
          simp only [scheduleSlots, hq]
          rw [if_pos (lt_of_lt_of_eq hlt hts.symm)]
          rw [hts, ih (fun p hp => hall p (by simp [hp])), hfm]
          simp [List.append_assoc]

/-- C5 (confirmed): a medicine with times `["08:00", "20:00"]` whose schedule
window covers exactly today (day `d`) and tomorrow — a 2-day horizon —
materializes, when invoked strictly before today's 08:00 slot, exactly 4 dose
instances with timestamps today 08:00 (`1440d+480`), today 20:00
(`1440d+1200`), tomorrow 08:00 (`1440d+1920`) and tomorrow 20:00
(`1440d+2640`), arming one timer per instance; and (second conjunct) a dose
row or timer is ever created only for timestamps strictly later than `now`. -/
theorem C5_two_day_materialization (d : Nat) (now : Int)
    (hfuture : now < 1440 * d + 480) :
    schedule_medicine_reminders d (d + 1) ["08:00", "20:00"] now
      = ⟨[1440 * (d : Int) + 480, 1440 * (d : Int) + 1200,
          1440 * (d : Int) + 1920, 1440 * (d : Int) + 2640],
         [1440 * (d : Int) + 480, 1440 * (d : Int) + 1200,
          1440 * (d : Int) + 1920, 1440 * (d : Int) + 2640], true⟩
    ∧ (∀ sd ed ts nw,
        (∀ x ∈ (schedule_medicine_reminders sd ed ts nw).rows, nw < x)
        ∧ (∀ x ∈ (schedule_medicine_reminders sd ed ts nw).jobs, nw < x)) := by
  constructor
  · have hp8 : ∀ dd : Nat, parsedTs (dd, "08:00")
        = some (1440 * (dd : Int) + 480) := by
      intro dd
      simp only [parsedTs, show parseHHMM "08:00" = some (8, 0) from rfl,
        Option.map_some', Option.some.injEq]
      push_cast
      ring
    have hp20 : ∀ dd : Nat, parsedTs (dd, "20:00")
        = some (1440 * (dd : Int) + 1200) := by
      intro dd
      simp only [parsedTs, show parseHHMM "20:00" = some (20, 0) from rfl,
        Option.map_some', Option.some.injEq]
      push_cast
      ring
    have hslots : slotList d (d + 1) ["08:00", "20:00"]
        = [(d, "08:00"), (d, "20:00"), (d + 1, "08:00"), (d + 1, "20:00")] := by
      unfold slotList
      rw [show d + 1 + 1 - d = 2 by omega]
      rfl
    have hall : ∀ p ∈ slotList d (d + 1) ["08:00", "20:00"],
        ∃ ts, parsedTs p = some ts ∧ now < ts := by
      rw [hslots]
      intro p hp
      simp only [List.mem_cons, List.not_mem_nil, or_false] at hp
      rcases hp with rfl | rfl | rfl | rfl
      · exact ⟨_, hp8 d, by omega⟩
      · exact ⟨_, hp20 d, by omega⟩
      · exact ⟨_, hp8 (d + 1), by push_cast; omega⟩
      · exact ⟨_, hp20 (d + 1), by push_cast; omega⟩
    unfold schedule_medicine_reminders
    rw [scheduleSlots_run hall, hslots]
    simp only [List.filterMap_cons, hp8, hp20, List.filterMap_nil,
      List.nil_append]
    push_cast
    ring_nf
  · intro sd ed ts nw
    exact scheduleSlots_future _ _ _ _ (by simp) (by simp)

/-- C5 witness: `C5_two_day_materialization` at day 0 with `now = 0`. -/
theorem C5_two_day_materialization_witness :
    schedule_medicine_reminders 0 1 ["08:00", "20:00"] 0
      = ⟨[480, 1200, 1920, 2640], [480, 1200, 1920, 2640], true⟩ := by
  have h := (C5_two_day_materialization 0 0 (by decide)).1
  simpa using h

/-- C9 witness: `C9_malformed_entry_paths` at the concrete entry `"8am"`. -/
theorem C9_malformed_entry_paths_witness :
    schedule_medicine_reminder 1 2 (["08:00"] ++ "8am" :: ["20:00"]) []
      = schedule_medicine_reminder 1 2 (["08:00"] ++ ["20:00"]) []
    ∧ (scheduleSlots 0 [(0, "8am")] [] []).success = false
    ∧ (scheduleSlots 0 [(0, "8am")] [] []).rows = [] :=
  C9_malformed_entry_paths 1 2 ["08:00"] ["20:00"] "8am" (by decide) []
    [(0, "8am")] (0, "8am") (by simp) (by decide) 0 [] []

end MedReminder
